import Mathlib

/-!
# Verification of the `mandelbrust` fractal core

Shallow embedding of `src/utils.rs` and the rendering logic of
`src/main.rs` (the `MandelPlane::draw` rasterizer and orbit tracer).

Modelling conventions:
* `f32` values are modelled as exact rationals (`ℚ`); all the concrete
  inputs used in the theorems below involve only arithmetic that is exact
  in single precision, so the idealisation is faithful on them.
* Rust's `usize` is modelled as `ℕ` together with an explicit wrapping
  subtraction `usizeSub` (64-bit two's-complement wraparound, the
  release-mode semantics of `a - b`).
* Rust's saturating float-to-`usize` cast (`as usize`) is modelled by
  `rustCastUsize`: negative values clamp to `0`, values above
  `usize::MAX` clamp to `2^64 - 1`, and the fractional part is truncated.
* Lazy iterators are modelled by explicit state passing: `MandelIter.next`
  returns the emitted item together with the successor state, and the
  bounded consumers (`take_while`-style counting, the traced-orbit loop)
  are structural recursions on the remaining budget.
-/

namespace Mandelbrust

/-- The range of values of the x-axis of the Mandelbrot set
    (`X_RANGE` in `utils.rs`). -/
def X_RANGE : ℚ × ℚ := (-2, 1)

/-- The range of values of the y-axis of the Mandelbrot set
    (`Y_RANGE` in `utils.rs`). -/
def Y_RANGE : ℚ × ℚ := (-1, 1)

/-- The length of the x-axis of the Mandelbrot set (`X_DIFF`). -/
def X_DIFF : ℚ := X_RANGE.2 - X_RANGE.1

/-- The length of the y-axis of the Mandelbrot set (`Y_DIFF`). -/
def Y_DIFF : ℚ := Y_RANGE.2 - Y_RANGE.1

/-- The scaling factor used to calculate `W` and `H`. -/
def SCALING_FACTOR : ℕ := 350

/-- Rust's `f32 as usize` cast: truncation toward zero with saturation at
    `0` below and at `usize::MAX = 2^64 - 1` above.  For a non-negative
    rational `q`, truncation toward zero is `q.num.toNat / q.den`. -/
def rustCastUsize (q : ℚ) : ℕ :=
  if q < 0 then 0 else min (q.num.toNat / q.den) (2 ^ 64 - 1)

/-- The width of the window (`W = X_DIFF as usize * SCALING_FACTOR`). -/
def W : ℕ := rustCastUsize X_DIFF * SCALING_FACTOR

/-- The height of the window (`H = Y_DIFF as usize * SCALING_FACTOR`). -/
def H : ℕ := rustCastUsize Y_DIFF * SCALING_FACTOR

/-- The value after which the points are no longer iterated through the
    Mandelbrot set equation (`ESCAPE_POINT` in `utils.rs`). -/
def ESCAPE_POINT : ℕ := 128

/-- The epsilon used to check if the cursor is at the center of the
    Mandelbrot plane (`CUSTOM_EPSILON = 0.065`). -/
def CUSTOM_EPSILON : ℚ := 65 / 1000

/-- 64-bit wrapping subtraction on `usize` values below `2^64`: the
    release-mode semantics of Rust's `a - b` on `usize`.  When `b ≤ a`
    this is ordinary subtraction; when `a < b` it underflows and wraps. -/
def usizeSub (a b : ℕ) : ℕ := (a + 2 ^ 64 - b) % 2 ^ 64

/-- The 16-entry RGBA color gradient (`COLOR_MAP` in `utils.rs`). -/
def COLOR_MAP : List (List ℕ) := [
  [ 66,  30,  15, 255],
  [ 25,   7,  26, 255],
  [  9,   1,  47, 255],
  [  4,   4,  73, 255],
  [  0,   7, 100, 255],
  [ 12,  44, 138, 255],
  [ 24,  82, 177, 255],
  [ 57, 125, 209, 255],
  [134, 181, 229, 255],
  [211, 236, 248, 255],
  [241, 233, 191, 255],
  [248, 201,  95, 255],
  [255, 170,   0, 255],
  [204, 128,   0, 255],
  [153,  87,   0, 255],
  [106,  52,   3, 255]]

/-- A point on the Mandelbrot plane (`MandelPoint`, `f32` pair). -/
structure MandelPoint where
  coordinates : ℚ × ℚ
deriving DecidableEq

/-- A generic 2D screen point (`Point`, `usize` pair). -/
structure Point where
  coordinates : ℕ × ℕ
deriving DecidableEq

/-- The position of the cursor on the screen (`Cursor`, `usize` pair). -/
structure Cursor where
  coordinates : ℕ × ℕ
deriving DecidableEq

/-- `MANDELPOINT_ZERO`, the origin of the Mandelbrot plane. -/
def MANDELPOINT_ZERO : MandelPoint := ⟨(0, 0)⟩

/-- `POINT_ZERO`. -/
def POINT_ZERO : Point := ⟨(0, 0)⟩

/-- `CURSOR_ZERO`. -/
def CURSOR_ZERO : Cursor := ⟨(0, 0)⟩

/-- `Plottable::is_distance_less_than` as instantiated at `MandelPoint`
    (`f32` coordinates): compares the squared componentwise difference
    with the squared distance. -/
def MandelPoint.is_distance_less_than
    (self other : MandelPoint) (distance : ℚ) : Bool :=
  let x_diff := self.coordinates.1 - other.coordinates.1
  let y_diff := self.coordinates.2 - other.coordinates.2
  decide (x_diff * x_diff + y_diff * y_diff < distance * distance)

/-- `Plottable::is_distance_less_than` as instantiated at the `usize`
    coordinate types `Cursor` and `Point`: the componentwise differences
    are computed by `usize` subtraction (which wraps on underflow in
    release mode) and only then converted to `f32`. -/
def usize_is_distance_less_than
    (self other : ℕ × ℕ) (distance : ℚ) : Bool :=
  let x_diff : ℚ := (usizeSub self.1 other.1 : ℕ)
  let y_diff : ℚ := (usizeSub self.2 other.2 : ℕ)
  decide (x_diff * x_diff + y_diff * y_diff < distance * distance)

/-- `Cursor::is_distance_less_than` (via the `impl_2d_entity!` macro). -/
def Cursor.is_distance_less_than
    (self : Cursor) (other : ℕ × ℕ) (distance : ℚ) : Bool :=
  usize_is_distance_less_than self.coordinates other distance

/-- `Point.is_distance_less_than` (via the `impl_2d_entity!` macro). -/
def Point.is_distance_less_than
    (self : Point) (other : ℕ × ℕ) (distance : ℚ) : Bool :=
  usize_is_distance_less_than self.coordinates other distance

/-- `impl From<Point> for MandelPoint` (`utils.rs`, lines 247-256):
    the screen-to-plane affine map. -/
def MandelPoint.fromPoint (point : Point) : MandelPoint :=
  ⟨(X_DIFF * (point.coordinates.1 : ℚ) / (W : ℚ) + X_RANGE.1,
    Y_DIFF * (point.coordinates.2 : ℚ) / (H : ℚ) + Y_RANGE.1)⟩

/-- `impl From<MandelPoint> for Point` (`utils.rs`, lines 274-283):
    the plane-to-screen affine map, truncating via `as usize`. -/
def Point.fromMandelPoint (mandelpoint : MandelPoint) : Point :=
  ⟨(rustCastUsize ((W : ℚ) * (mandelpoint.coordinates.1 - X_RANGE.1) / X_DIFF),
    rustCastUsize ((H : ℚ) * (mandelpoint.coordinates.2 - Y_RANGE.1) / Y_DIFF))⟩

/-- The state of `MandelIter`: the current orbit value `curr` and the
    fixed constant `c`, both complex numbers stored as (re, im) pairs. -/
structure MandelIter where
  curr : ℚ × ℚ
  c : ℚ × ℚ
deriving DecidableEq

/-- `MandelIter::new`: `curr` starts at `0 + 0i`, `c` is the given point. -/
def MandelIter.new (mandel_c : MandelPoint) : MandelIter :=
  ⟨(0, 0), mandel_c.coordinates⟩

/-- Complex multiplication as performed by `num::Complex<f32>`. -/
def complexMul (a b : ℚ × ℚ) : ℚ × ℚ :=
  (a.1 * b.1 - a.2 * b.2, a.1 * b.2 + a.2 * b.1)

/-- Complex addition as performed by `num::Complex<f32>`. -/
def complexAdd (a b : ℚ × ℚ) : ℚ × ℚ := (a.1 + b.1, a.2 + b.2)

/-- `MandelIter::next` (`utils.rs`, lines 334-344): if
    `curr.re² + curr.im² > 4.0` the sequence has ended (`None`), else
    `curr` is advanced to `curr * curr + c` and the new `curr` emitted.
    Modelled with explicit state passing: we return the emitted item and
    the successor state. -/
def MandelIter.next (s : MandelIter) : Option MandelPoint × MandelIter :=
  if s.curr.1 * s.curr.1 + s.curr.2 * s.curr.2 > 4 then (none, s)
  else
    let curr := complexAdd (complexMul s.curr s.curr) s.c
    (some ⟨curr⟩, ⟨curr, s.c⟩)

/-- The rasterizer's per-pixel count (`main.rs`, line 98):
`iter.enumerate().take_while(|(idx, _)| *idx <= ESCAPE_POINT).count()`.
The predicate holds for indices `0 ..= ESCAPE_POINT`, so the `take_while`
consumes and counts at most `ESCAPE_POINT + 1` emitted values; the
remaining admissible indices are the structural fuel. -/
def rasterCountAux : ℕ → MandelIter → ℕ
  | 0, _ => 0
  | fuel + 1, s =>
    match s.next with
    | (none, _) => 0
    | (some _, s') => rasterCountAux fuel s' + 1

/-- The iteration count computed by `MandelPlane::draw` for a pixel
    (`main.rs`, lines 94-98): build the `Point`, map it into the plane,
    and count the values emitted by `MandelIter` while `idx <= ESCAPE_POINT`. -/
def iterations (pixel : Point) : ℕ :=
  rasterCountAux (ESCAPE_POINT + 1) (MandelIter.new (MandelPoint.fromPoint pixel))

/-- `MandelPlane::map_color` (`main.rs`, lines 57-59):
    `COLOR_MAP[iterations % 16]`. -/
def map_color (iters : ℕ) : List ℕ := COLOR_MAP.getD (iters % 16) []

/-- The 4 RGBA bytes written for one pixel (`main.rs`, line 100). -/
def colored_pixel (pixel : Point) : List ℕ := map_color (iterations pixel)

/-- One row of the pixel buffer: the rasterizer splits the buffer into
    `H` rows of `W * 4` bytes and fills row `y` pixel by pixel
    (`main.rs`, lines 90-105). -/
def renderedRow (y : ℕ) : List ℕ :=
  (List.range W).flatMap fun x => colored_pixel ⟨(x, y)⟩

/-- The full `H * W * 4`-byte RGBA buffer `rgba` built by
    `MandelPlane::draw` (`main.rs`, lines 88-106), row-major. -/
def renderedBuffer : List ℕ := (List.range H).flatMap renderedRow

/-- The remapping loop of the orbit-trace overlay (`main.rs`, lines
    135-151): each emitted orbit value is mapped back to the screen and
    its vertical coordinate re-inverted by the `usize` subtraction
    `H - y`; the loop pulls the iterator and breaks once `idx` reaches
    `ESCAPE_POINT`, so at most `ESCAPE_POINT` points are pushed. -/
def traceAux : ℕ → MandelIter → List (ℕ × ℕ)
  | 0, _ => []
  | fuel + 1, s =>
    match s.next with
    | (none, _) => []
    | (some next_mapped, s') =>
      let next := Point.fromMandelPoint next_mapped
      (next.coordinates.1, usizeSub H next.coordinates.2) :: traceAux fuel s'

/-- The pointer position mapped into the Mandelbrot plane
    (`main.rs`, lines 118-123): the cursor's vertical coordinate is
    inverted (`H - cursor.1`, a `usize` subtraction) and the result is
    converted via `From<Point> for MandelPoint`. -/
def mappedCursor (cursor : Cursor) : MandelPoint :=
  MandelPoint.fromPoint ⟨(cursor.coordinates.1, usizeSub H cursor.coordinates.2)⟩

/-- The red-line overlay points built by `MandelPlane::draw`
    (`main.rs`, lines 126-151): if the mapped cursor is within
    `CUSTOM_EPSILON` of the plane origin, or not within distance `2.0` of
    it, the draw returns early and no trace is produced; otherwise the
    trace starts at the original cursor position and appends the
    remapped orbit points. -/
def drawTrace (cursor : Cursor) : List (ℕ × ℕ) :=
  let mapped := mappedCursor cursor
  if mapped.is_distance_less_than MANDELPOINT_ZERO CUSTOM_EPSILON
      || !(mapped.is_distance_less_than MANDELPOINT_ZERO 2) then []
  else
    (cursor.coordinates.1, cursor.coordinates.2) ::
      traceAux ESCAPE_POINT (MandelIter.new mapped)

/-! ## Basic evaluation lemmas -/

/-- The window width evaluates to `1050`. -/
lemma W_eq : W = 1050 := by
  norm_num [W, rustCastUsize, X_DIFF, X_RANGE, SCALING_FACTOR]
  decide

/-- The window height evaluates to `700`. -/
lemma H_eq : H = 700 := by
  norm_num [H, rustCastUsize, Y_DIFF, Y_RANGE, SCALING_FACTOR]
  decide

/-- `rustCastUsize` on (the rational image of) a natural number. -/
lemma rustCastUsize_natCast (n : ℕ) :
    rustCastUsize (n : ℚ) = min n (2 ^ 64 - 1) := by
  have h0 : ¬((n : ℚ) < 0) := not_lt.mpr (by positivity)
  simp [rustCastUsize, h0]

/-- `rustCastUsize` is bounded below by any natural number below the
    argument (and below `usize::MAX`). -/
lemma le_rustCastUsize (c : ℕ) (q : ℚ) (hcq : (c : ℚ) ≤ q)
    (hmax : c ≤ 2 ^ 64 - 1) : c ≤ rustCastUsize q := by
  have hq0 : ¬(q < 0) := by
    have : (0 : ℚ) ≤ (c : ℚ) := by positivity
    intro hq; linarith
  rw [rustCastUsize, if_neg hq0]
  refine le_min ?_ hmax
  have hden : 0 < q.den := q.den_pos
  rw [Nat.le_div_iff_mul_le hden]
  have hnum0 : 0 ≤ q.num := Rat.num_nonneg.mpr (not_lt.mp hq0)
  have hq : q = (q.num : ℚ) / (q.den : ℚ) := (Rat.num_div_den q).symm
  have hden' : (0 : ℚ) < (q.den : ℚ) := by exact_mod_cast hden
  have hmul : (c : ℚ) * (q.den : ℚ) ≤ (q.num : ℚ) := by
    rw [hq] at hcq
    exact (le_div_iff₀ hden').mp hcq
  have hint : (c : ℤ) * (q.den : ℤ) ≤ q.num := by exact_mod_cast hmul
  omega

/-! ## Claim theorems -/

/-- **C4**: under the cyclic-palette policy, `map_color k` equals
`map_color (k + 16)` for every iteration count `k`; the returned color is
always `COLOR_MAP[k % 16]`, and `COLOR_MAP` is a fixed table of exactly
16 RGBA entries. -/
theorem map_color_cyclic (k : ℕ) :
    map_color k = map_color (k + 16) ∧
    map_color k = COLOR_MAP.getD (k % 16) [] ∧
    COLOR_MAP.length = 16 := by
  refine ⟨?_, rfl, rfl⟩
  simp [map_color, Nat.add_mod_right]

/-- **C3**: for `c = (1.0, 1.0)` the iterator emits exactly the two
values `(1.0, 1.0)` and `(1.0, 3.0)`, and the third call to `next`
returns `none` (the orbit `0 → 1+1i → 1+3i` escapes since
`|1+3i|² = 10 > 4`). -/
theorem mandelIter_known_escape_example :
    (MandelIter.new ⟨(1, 1)⟩).next.1 = some ⟨(1, 1)⟩ ∧
    (MandelIter.new ⟨(1, 1)⟩).next.2.next.1 = some ⟨(1, 3)⟩ ∧
    (MandelIter.new ⟨(1, 1)⟩).next.2.next.2.next.1 = none := by
  norm_num [MandelIter.new, MandelIter.next, complexMul, complexAdd]

/-- **C7**: for every plane coordinate `c` with `|c| > 2.0` (i.e.
`c.re² + c.im² > 4`), the iterator emits at most one value: the first
`next` returns `Some c` (since `curr` starts at `0`), and the second
`next` returns `None` because `|c|² > 4`. -/
theorem escape_boundedness (c : ℚ × ℚ) (h : 4 < c.1 * c.1 + c.2 * c.2) :
    (MandelIter.new ⟨c⟩).next.1 = some ⟨c⟩ ∧
    (MandelIter.new ⟨c⟩).next.2.next.1 = none := by
  constructor
  · norm_num [MandelIter.new, MandelIter.next, complexMul, complexAdd]
  · norm_num [MandelIter.new, MandelIter.next, complexMul, complexAdd, h]

/-- Witness for **C7** at the concrete input `c = (3.0, 0.0)`. -/
theorem escape_boundedness_witness :
    (MandelIter.new ⟨((3 : ℚ), 0)⟩).next.1 = some ⟨((3 : ℚ), 0)⟩ ∧
    (MandelIter.new ⟨((3 : ℚ), 0)⟩).next.2.next.1 = none :=
  escape_boundedness (3, 0) (by norm_num)

/-- On in-range pixels, the screen-to-plane-to-screen round trip is in
    fact exact (over exact rational arithmetic). -/
lemma round_trip_exact (x y : ℕ) (hx : x < W) (hy : y < H) :
    Point.fromMandelPoint (MandelPoint.fromPoint ⟨(x, y)⟩) = ⟨(x, y)⟩ := by
  have hmax : (2 : ℕ) ^ 64 - 1 = 18446744073709551615 := by norm_num
  rw [W_eq] at hx
  rw [H_eq] at hy
  simp only [Point.fromMandelPoint, MandelPoint.fromPoint]
  have harg1 : (W : ℚ) * ((X_DIFF * ((x : ℕ) : ℚ) / (W : ℚ) + X_RANGE.1)
      - X_RANGE.1) / X_DIFF = ((x : ℕ) : ℚ) := by
    rw [W_eq]; norm_num [X_DIFF, X_RANGE]; ring
  have harg2 : (H : ℚ) * ((Y_DIFF * ((y : ℕ) : ℚ) / (H : ℚ) + Y_RANGE.1)
      - Y_RANGE.1) / Y_DIFF = ((y : ℕ) : ℚ) := by
    rw [H_eq]; norm_num [Y_DIFF, Y_RANGE]; ring
  rw [harg1, harg2, rustCastUsize_natCast, rustCastUsize_natCast, hmax]
  simp only [Point.mk.injEq, Prod.mk.injEq]
  omega

/-- **C2**: for every in-range screen point `(x, y)` (with `x < W`,
`y < H`), mapping to the plane via `From<Point> for MandelPoint` and back
via `From<MandelPoint> for Point` yields a screen point whose coordinates
each differ from the original by at most 1 (the round trip is exact over
exact rational arithmetic). -/
theorem coordinate_round_trip (x y : ℕ) (hx : x < W) (hy : y < H) :
    Nat.dist
      (Point.fromMandelPoint (MandelPoint.fromPoint ⟨(x, y)⟩)).coordinates.1
      x ≤ 1 ∧
    Nat.dist
      (Point.fromMandelPoint (MandelPoint.fromPoint ⟨(x, y)⟩)).coordinates.2
      y ≤ 1 := by
  rw [round_trip_exact x y hx hy]
  simp [Nat.dist_self]

/-- Witness for **C2** at the concrete in-range pixel `(3, 5)`. -/
theorem coordinate_round_trip_witness :
    (3 < W ∧ 5 < H) ∧
    (Nat.dist
      (Point.fromMandelPoint (MandelPoint.fromPoint ⟨(3, 5)⟩)).coordinates.1
      3 ≤ 1 ∧
     Nat.dist
      (Point.fromMandelPoint (MandelPoint.fromPoint ⟨(3, 5)⟩)).coordinates.2
      5 ≤ 1) :=
  ⟨⟨by norm_num [W_eq], by norm_num [H_eq]⟩,
    coordinate_round_trip 3 5 (by norm_num [W_eq]) (by norm_num [H_eq])⟩

/-- **C6 counterexample**: the plane coordinate `(-3.0, 0.0)` lies
outside the visible window (`-3 < -2`), yet `From<MandelPoint> for Point`
maps it to the screen point `(0, 350)`, which is inside
`[0, W) × [0, H)` — the saturating `as usize` cast clamps the negative
intermediate `-350` to `0`, refuting the claim that out-of-window
coordinates always land outside the screen. -/
theorem toScreen_no_clamp_counterexample :
    (MandelPoint.mk (-3, 0)).coordinates.1 < X_RANGE.1 ∧
    (Point.fromMandelPoint ⟨(-3, 0)⟩).coordinates.1 < W ∧
    (Point.fromMandelPoint ⟨(-3, 0)⟩).coordinates.2 < H := by
  refine ⟨by norm_num [X_RANGE], ?_, ?_⟩
  · have harg : (W : ℚ) * (((-3 : ℚ)) - X_RANGE.1) / X_DIFF = -350 := by
      rw [W_eq]; norm_num [X_DIFF, X_RANGE]
    have hcast : rustCastUsize (-350) = 0 := by norm_num [rustCastUsize]
    simp only [Point.fromMandelPoint]
    rw [harg, hcast, W_eq]  -- hmm check the projections reduce
    norm_num
  · have harg : (H : ℚ) * (((0 : ℚ)) - Y_RANGE.1) / Y_DIFF = ((350 : ℕ) : ℚ) := by
      rw [H_eq]; norm_num [Y_DIFF, Y_RANGE]
    simp only [Point.fromMandelPoint]
    rw [harg, rustCastUsize_natCast, H_eq]
    norm_num

/-- **C6 amended**: for every plane coordinate strictly above the
window's upper bounds (`re > 1` or `im > 1`) the plane-to-screen map
produces a point outside `[0, W) × [0, H)`; for coordinates below the
lower bounds this fails because the `as usize` cast saturates negative
intermediates to `0`. -/
theorem toScreen_outside_window_high (q : MandelPoint)
    (h : 1 < q.coordinates.1 ∨ 1 < q.coordinates.2) :
    W ≤ (Point.fromMandelPoint q).coordinates.1 ∨
    H ≤ (Point.fromMandelPoint q).coordinates.2 := by
  rcases h with h | h
  · left
    simp only [Point.fromMandelPoint]
    apply le_rustCastUsize
    · rw [W_eq]
      norm_num [X_DIFF, X_RANGE]
      nlinarith [h]
    · rw [W_eq]; norm_num
  · right
    simp only [Point.fromMandelPoint]
    apply le_rustCastUsize
    · rw [H_eq]
      norm_num [Y_DIFF, Y_RANGE]
      nlinarith [h]
    · rw [H_eq]; norm_num

/-- Witness for **C6 amended** at the concrete input `q = (2.0, 0.0)`. -/
theorem toScreen_outside_window_high_witness :
    (1 < (MandelPoint.mk (2, 0)).coordinates.1 ∨
     1 < (MandelPoint.mk (2, 0)).coordinates.2) ∧
    (W ≤ (Point.fromMandelPoint ⟨(2, 0)⟩).coordinates.1 ∨
     H ≤ (Point.fromMandelPoint ⟨(2, 0)⟩).coordinates.2) :=
  ⟨Or.inl (show (1 : ℚ) < 2 by norm_num),
    toScreen_outside_window_high ⟨(2, 0)⟩
      (Or.inl (show (1 : ℚ) < 2 by norm_num))⟩

/-- The bounded count never exceeds its fuel. -/
lemma rasterCountAux_le (fuel : ℕ) (s : MandelIter) :
    rasterCountAux fuel s ≤ fuel := by
  induction fuel generalizing s with
  | zero => simp [rasterCountAux]
  | succ f ih =>
    rcases hs : s.next with ⟨o, s'⟩
    cases o with
    | none => simp [rasterCountAux, hs]
    | some m =>
      simp only [rasterCountAux, hs]
      exact Nat.succ_le_succ (ih s')

/-- **C1 amended**: the per-pixel count of `MandelPlane::draw` is at most
`ESCAPE_POINT + 1 = 129`: the `take_while` predicate `idx <= ESCAPE_POINT`
admits the indices `0 ..= ESCAPE_POINT`, i.e. up to `ESCAPE_POINT + 1`
emitted values, so counting stops at the first of escape or
`ESCAPE_POINT + 1` values consumed. -/
theorem iterations_le_budget_succ (pixel : Point) :
    iterations pixel ≤ ESCAPE_POINT + 1 :=
  rasterCountAux_le _ _

/-- Stepping the iterator at the origin stays at the origin. -/
lemma next_zero_zero :
    MandelIter.next ⟨(0, 0), (0, 0)⟩ = (some ⟨(0, 0)⟩, ⟨(0, 0), (0, 0)⟩) := by
  norm_num [MandelIter.next, complexMul, complexAdd]

/-- The bounded count at the (never-escaping) origin exhausts its fuel. -/
lemma rasterCountAux_zero_state (fuel : ℕ) :
    rasterCountAux fuel ⟨(0, 0), (0, 0)⟩ = fuel := by
  induction fuel with
  | zero => rfl
  | succ f ih => simp only [rasterCountAux, next_zero_zero, ih]

/-- The pixel `(700, 350)` maps exactly to the plane origin. -/
lemma fromPoint_center : MandelPoint.fromPoint ⟨(700, 350)⟩ = ⟨(0, 0)⟩ := by
  simp only [MandelPoint.fromPoint]
  rw [W_eq, H_eq]
  norm_num [X_DIFF, X_RANGE, Y_DIFF, Y_RANGE]

/-- **C1 counterexample**: the in-range pixel `(700, 350)` maps to the
plane origin, whose orbit never escapes, and the rasterizer's count for
it is `ESCAPE_POINT + 1 = 129`, violating the claimed bound
`count ≤ ESCAPE_POINT = 128`. -/
theorem iterations_exceed_escape_budget :
    700 < W ∧ 350 < H ∧
    iterations ⟨(700, 350)⟩ = ESCAPE_POINT + 1 ∧
    ¬(iterations ⟨(700, 350)⟩ ≤ ESCAPE_POINT) := by
  have hit : iterations ⟨(700, 350)⟩ = ESCAPE_POINT + 1 := by
    unfold iterations
    rw [fromPoint_center]
    exact rasterCountAux_zero_state _
  exact ⟨by norm_num [W_eq], by norm_num [H_eq], hit, by omega⟩

/-- **C5**: the orbit overlay is empty exactly when the mapped pointer
coordinate is within `CUSTOM_EPSILON` of the plane origin
(`re² + im² < ε²`) or at distance at least `2.0` from it
(`re² + im² ≥ 2²`); for every mapped coordinate strictly between those
bounds a (nonempty) trace is produced. -/
theorem drawTrace_empty_iff (cursor : Cursor) :
    drawTrace cursor = [] ↔
      ((mappedCursor cursor).coordinates.1 * (mappedCursor cursor).coordinates.1 +
          (mappedCursor cursor).coordinates.2 * (mappedCursor cursor).coordinates.2 <
        CUSTOM_EPSILON * CUSTOM_EPSILON ∨
       2 * 2 ≤
        (mappedCursor cursor).coordinates.1 * (mappedCursor cursor).coordinates.1 +
          (mappedCursor cursor).coordinates.2 * (mappedCursor cursor).coordinates.2) := by
  have hval : drawTrace cursor =
      if ((mappedCursor cursor).is_distance_less_than MANDELPOINT_ZERO CUSTOM_EPSILON
          || !((mappedCursor cursor).is_distance_less_than MANDELPOINT_ZERO 2)) = true
      then []
      else (cursor.coordinates.1, cursor.coordinates.2) ::
        traceAux ESCAPE_POINT (MandelIter.new (mappedCursor cursor)) := rfl
  have hcond :
      ((mappedCursor cursor).is_distance_less_than MANDELPOINT_ZERO CUSTOM_EPSILON
          || !((mappedCursor cursor).is_distance_less_than MANDELPOINT_ZERO 2)) = true ↔
      ((mappedCursor cursor).coordinates.1 * (mappedCursor cursor).coordinates.1 +
          (mappedCursor cursor).coordinates.2 * (mappedCursor cursor).coordinates.2 <
        CUSTOM_EPSILON * CUSTOM_EPSILON ∨
       2 * 2 ≤
        (mappedCursor cursor).coordinates.1 * (mappedCursor cursor).coordinates.1 +
          (mappedCursor cursor).coordinates.2 * (mappedCursor cursor).coordinates.2) := by
    simp [MandelPoint.is_distance_less_than, MANDELPOINT_ZERO, sub_zero, not_lt]
  constructor
  · intro he
    by_contra hnot
    rw [hval] at he
    split at he
    next h => exact hnot (hcond.mp h)
    next h => exact (List.cons_ne_nil _ _) he
  · intro hr
    rw [hval, if_pos (hcond.mpr hr)]

/-- The cursor `(1050, 0)`, once vertically inverted, maps to the plane
    coordinate `(1, 1)`. -/
lemma mappedCursor_demo : mappedCursor ⟨(1050, 0)⟩ = ⟨(1, 1)⟩ := by
  have hsub : usizeSub H 0 = 700 := by rw [H_eq]; decide
  simp only [mappedCursor, hsub, MandelPoint.fromPoint]
  rw [W_eq, H_eq]
  norm_num [X_DIFF, X_RANGE, Y_DIFF, Y_RANGE]

/-- First orbit step at `c = (1, 1)`. -/
lemma next_c11_step0 :
    MandelIter.next ⟨(0, 0), (1, 1)⟩ = (some ⟨(1, 1)⟩, ⟨(1, 1), (1, 1)⟩) := by
  norm_num [MandelIter.next, complexMul, complexAdd]

/-- Second orbit step at `c = (1, 1)`. -/
lemma next_c11_step1 :
    MandelIter.next ⟨(1, 1), (1, 1)⟩ = (some ⟨(1, 3)⟩, ⟨(1, 3), (1, 1)⟩) := by
  norm_num [MandelIter.next, complexMul, complexAdd]

/-- Third orbit step at `c = (1, 1)`: the orbit has escaped. -/
lemma next_c11_step2 :
    MandelIter.next ⟨(1, 3), (1, 1)⟩ = (none, ⟨(1, 3), (1, 1)⟩) := by
  norm_num [MandelIter.next, complexMul, complexAdd]

/-- The plane coordinate `(1, 1)` maps to the screen point `(1050, 700)`. -/
lemma toScreen_c11 : Point.fromMandelPoint ⟨(1, 1)⟩ = ⟨(1050, 700)⟩ := by
  simp only [Point.fromMandelPoint]
  rw [W_eq, H_eq]
  have h1 : ((1050 : ℕ) : ℚ) * ((1 : ℚ) - X_RANGE.1) / X_DIFF = ((1050 : ℕ) : ℚ) := by
    norm_num [X_DIFF, X_RANGE]
  have h2 : ((700 : ℕ) : ℚ) * ((1 : ℚ) - Y_RANGE.1) / Y_DIFF = ((700 : ℕ) : ℚ) := by
    norm_num [Y_DIFF, Y_RANGE]
  rw [h1, h2, rustCastUsize_natCast, rustCastUsize_natCast]
  norm_num

/-- The plane coordinate `(1, 3)` maps to the screen point `(1050, 1400)`:
    its vertical coordinate exceeds `H = 700`. -/
lemma toScreen_c13 : Point.fromMandelPoint ⟨(1, 3)⟩ = ⟨(1050, 1400)⟩ := by
  simp only [Point.fromMandelPoint]
  rw [W_eq, H_eq]
  have h1 : ((1050 : ℕ) : ℚ) * ((1 : ℚ) - X_RANGE.1) / X_DIFF = ((1050 : ℕ) : ℚ) := by
    norm_num [X_DIFF, X_RANGE]
  have h2 : ((700 : ℕ) : ℚ) * ((3 : ℚ) - Y_RANGE.1) / Y_DIFF = ((1400 : ℕ) : ℚ) := by
    norm_num [Y_DIFF, Y_RANGE]
  rw [h1, h2, rustCastUsize_natCast, rustCastUsize_natCast]
  norm_num

/-- Unfolding the trace loop when the iterator emits a value. -/
lemma traceAux_succ_some (fuel : ℕ) (s s' : MandelIter) (m : MandelPoint)
    (h : s.next = (some m, s')) :
    traceAux (fuel + 1) s =
      ((Point.fromMandelPoint m).coordinates.1,
        usizeSub H (Point.fromMandelPoint m).coordinates.2) :: traceAux fuel s' := by
  simp only [traceAux, h]

/-- Unfolding the trace loop when the iterator has terminated. -/
lemma traceAux_succ_none (fuel : ℕ) (s s' : MandelIter)
    (h : s.next = (none, s')) :
    traceAux (fuel + 1) s = [] := by
  simp only [traceAux, h]

/-- The guard of `MandelPlane::draw` lets the mapped point `(1, 1)`
    through: it is neither within `CUSTOM_EPSILON` of the origin nor at
    distance `≥ 2` from it. -/
lemma guard_c11_false :
    ((MandelPoint.mk (1, 1)).is_distance_less_than MANDELPOINT_ZERO CUSTOM_EPSILON
      || !((MandelPoint.mk (1, 1)).is_distance_less_than MANDELPOINT_ZERO 2)) = false := by
  simp only [MandelPoint.is_distance_less_than, MANDELPOINT_ZERO, CUSTOM_EPSILON,
    Bool.or_eq_false_iff, Bool.not_eq_false', decide_eq_false_iff_not, decide_eq_true_eq]
  norm_num

/-- The complete overlay trace produced for the cursor `(1050, 0)`. -/
lemma drawTrace_c11 :
    drawTrace ⟨(1050, 0)⟩ = [(1050, 0), (1050, 0), (1050, 2 ^ 64 - 700)] := by
  have hval : drawTrace ⟨(1050, 0)⟩ =
      if ((mappedCursor ⟨(1050, 0)⟩).is_distance_less_than MANDELPOINT_ZERO CUSTOM_EPSILON
          || !((mappedCursor ⟨(1050, 0)⟩).is_distance_less_than MANDELPOINT_ZERO 2)) = true
      then []
      else ((1050 : ℕ), (0 : ℕ)) ::
        traceAux ESCAPE_POINT (MandelIter.new (mappedCursor ⟨(1050, 0)⟩)) := rfl
  rw [hval, mappedCursor_demo]
  rw [if_neg (by rw [guard_c11_false]; exact Bool.false_ne_true)]
  have hnew : MandelIter.new ⟨(1, 1)⟩ = ⟨(0, 0), (1, 1)⟩ := rfl
  rw [hnew]
  have h128 : ESCAPE_POINT = 127 + 1 := by norm_num [ESCAPE_POINT]
  rw [h128, traceAux_succ_some 127 _ _ _ next_c11_step0, toScreen_c11]
  rw [show (127 : ℕ) = 126 + 1 from rfl,
    traceAux_succ_some 126 _ _ _ next_c11_step1, toScreen_c13]
  rw [show (126 : ℕ) = 125 + 1 from rfl,
    traceAux_succ_none 125 _ _ next_c11_step2]
  rw [H_eq]
  norm_num
  decide

/-- **C8**: the vertical re-inversion of the orbit overlay is the
unsigned subtraction `H - y`, well-defined only when `y ≤ H`.  The traced
point `c = (1, 1)` (cursor `(1050, 0)`) emits the orbit value `(1, 3)`
with imaginary part `3 > 1` before escaping; its remapped screen
coordinate is `y = 1400 > H = 700`, so `H - y` underflows, and under the
64-bit wrapping (release-mode) semantics the wrapped value
`2^64 - 700` appears in the produced trace. -/
theorem trace_vertical_underflow :
    (MandelIter.new (mappedCursor ⟨(1050, 0)⟩)).next.2.next.1 = some ⟨(1, 3)⟩ ∧
    (1 : ℚ) < (MandelPoint.mk (1, 3)).coordinates.2 ∧
    (Point.fromMandelPoint ⟨(1, 3)⟩).coordinates.2 = 1400 ∧
    H < 1400 ∧
    usizeSub H 1400 = 2 ^ 64 - 700 ∧
    drawTrace ⟨(1050, 0)⟩ = [(1050, 0), (1050, 0), (1050, 2 ^ 64 - 700)] := by
  refine ⟨?_, by norm_num, ?_, by rw [H_eq]; norm_num, by rw [H_eq]; decide,
    drawTrace_c11⟩
  · rw [mappedCursor_demo]
    have hnew : MandelIter.new ⟨(1, 1)⟩ = ⟨(0, 0), (1, 1)⟩ := rfl
    rw [hnew, next_c11_step0, next_c11_step1]
  · rw [toScreen_c13]

/-- **C9**: `is_distance_less_than` on the `usize`-coordinate types
computes componentwise differences by unsigned subtraction before the
`f32` conversion, so it is well-defined only when each coordinate of
`self` is at least the corresponding coordinate of `other`: the
comparison succeeds for `(9, 9)` against `(0, 0)` (distance `9√2 < 13`)
but fails in the reversed order, because `0 - 9` underflows and wraps to
`2^64 - 9`, making the comparison asymmetric. -/
theorem usize_distance_underflow_asymmetric :
    Cursor.is_distance_less_than ⟨(9, 9)⟩ (0, 0) 13 = true ∧
    Point.is_distance_less_than ⟨(0, 0)⟩ (9, 9) 13 = false ∧
    usizeSub 0 9 = 2 ^ 64 - 9 := by
  have h90 : usizeSub 9 0 = 9 := by decide
  have h09 : usizeSub 0 9 = 2 ^ 64 - 9 := by decide
  refine ⟨?_, ?_, h09⟩
  · simp only [Cursor.is_distance_less_than, usize_is_distance_less_than, h90,
      decide_eq_true_eq]
    norm_num
  · simp only [Point.is_distance_less_than, usize_is_distance_less_than, h09,
      decide_eq_false_iff_not]
    have hbig : ((2 ^ 64 - 9 : ℕ) : ℚ) = 18446744073709551607 := by norm_num
    rw [hbig]
    norm_num

/-! ## Alpha-channel invariant of the rendered buffer -/

/-- Every fourth byte (the alpha byte of each 4-byte RGBA cell) of a
    byte list equals `255`. -/
def alphaOpaque (l : List ℕ) : Prop :=
  ∀ i, 4 * i + 3 < l.length → l.getD (4 * i + 3) 0 = 255

lemma alphaOpaque_nil : alphaOpaque [] := by
  intro i h
  simp at h

/-- Each palette entry is a 4-byte cell whose alpha byte is `255`. -/
lemma map_color_length_alpha (k : ℕ) :
    (map_color k).length = 4 ∧ (map_color k).getD 3 0 = 255 := by
  have hlt : k % 16 < 16 := Nat.mod_lt _ (by norm_num)
  have hall : ∀ m : Fin 16,
      (COLOR_MAP.getD (m : ℕ) []).length = 4 ∧
      (COLOR_MAP.getD (m : ℕ) []).getD 3 0 = 255 := by decide
  simpa [map_color] using hall ⟨k % 16, hlt⟩

/-- A single 4-byte cell with opaque alpha satisfies `alphaOpaque`. -/
lemma alphaOpaque_cell {l : List ℕ} (hlen : l.length = 4)
    (ha : l.getD 3 0 = 255) : alphaOpaque l := by
  intro i h
  rw [hlen] at h
  have hi : i = 0 := by omega
  subst hi
  simpa using ha

/-- `alphaOpaque` is preserved by appending, provided the front part
    consists of whole 4-byte cells. -/
lemma alphaOpaque_append {a b : List ℕ} (ha4 : a.length % 4 = 0)
    (ha : alphaOpaque a) (hb : alphaOpaque b) : alphaOpaque (a ++ b) := by
  intro i h
  rcases Nat.lt_or_ge (4 * i + 3) a.length with hlt | hge
  · rw [List.getD_append _ _ _ _ hlt]
    exact ha i hlt
  · rw [List.getD_append_right _ _ _ _ hge]
    obtain ⟨k, hk⟩ := Nat.dvd_of_mod_eq_zero ha4
    have hidx : 4 * i + 3 - a.length = 4 * (i - k) + 3 := by omega
    rw [hidx]
    apply hb
    have hlen : (a ++ b).length = a.length + b.length := List.length_append a b
    omega

/-- Concatenating 4-byte-aligned, alpha-opaque chunks over a list yields
    a 4-byte-aligned, alpha-opaque buffer. -/
lemma alphaOpaque_flatMap {α : Type} (L : List α) (g : α → List ℕ)
    (h : ∀ a ∈ L, (g a).length % 4 = 0 ∧ alphaOpaque (g a)) :
    (L.flatMap g).length % 4 = 0 ∧ alphaOpaque (L.flatMap g) := by
  induction L with
  | nil => exact ⟨by simp, by simp only [List.flatMap_nil]; exact alphaOpaque_nil⟩
  | cons a L ih =>
    have hha := h a (List.mem_cons_self a L)
    have hih := ih fun x hx => h x (List.mem_cons_of_mem a hx)
    rw [List.flatMap_cons]
    constructor
    · rw [List.length_append]
      omega
    · exact alphaOpaque_append hha.1 hha.2 hih.2

/-- Each rendered row is 4-byte aligned and alpha-opaque. -/
lemma renderedRow_opaque (y : ℕ) :
    (renderedRow y).length % 4 = 0 ∧ alphaOpaque (renderedRow y) := by
  apply alphaOpaque_flatMap
  intro x _
  obtain ⟨hlen, ha⟩ := map_color_length_alpha (iterations ⟨(x, y)⟩)
  exact ⟨by simp [colored_pixel, hlen], alphaOpaque_cell hlen ha⟩

/-- **C10**: every pixel written into the rendered buffer is fully
opaque: all 16 palette entries have alpha `255` and `map_color` always
returns a palette entry, so every fourth byte (the alpha byte of each
pixel) of the `H * W * 4` buffer equals `255`. -/
theorem rendered_buffer_alpha_opaque (i : ℕ)
    (h : 4 * i + 3 < renderedBuffer.length) :
    renderedBuffer.getD (4 * i + 3) 0 = 255 := by
  have hbuf :=
    alphaOpaque_flatMap (List.range H) renderedRow fun y _ => renderedRow_opaque y
  rw [renderedBuffer] at h ⊢
  exact hbuf.2 i h

/-- The length of a `flatMap` whose chunks have constant length. -/
lemma length_flatMap_const {α : Type} (L : List α) (g : α → List ℕ) (n : ℕ)
    (h : ∀ a ∈ L, (g a).length = n) : (L.flatMap g).length = n * L.length := by
  induction L with
  | nil => simp
  | cons a L ih =>
    rw [List.flatMap_cons, List.length_append, h a (List.mem_cons_self a L),
      ih fun x hx => h x (List.mem_cons_of_mem a hx)]
    simp [List.length_cons]
    ring

/-- The rendered buffer has exactly `(4 * W) * H` bytes. -/
lemma renderedBuffer_length : renderedBuffer.length = (4 * W) * H := by
  rw [renderedBuffer, length_flatMap_const _ _ (4 * W), List.length_range]
  intro y _
  rw [renderedRow, length_flatMap_const _ _ 4, List.length_range]
  intro x _
  exact (map_color_length_alpha _).1

/-- Witness for **C10** at the concrete byte index `3` (the alpha byte
    of the first pixel). -/
theorem rendered_buffer_alpha_opaque_witness :
    renderedBuffer.getD (4 * 0 + 3) 0 = 255 :=
  rendered_buffer_alpha_opaque 0
    (by rw [renderedBuffer_length, W_eq, H_eq]; norm_num)

end Mandelbrust
